import Mathlib

/-!
Verification of the batch image conversion/optimization script.

The script converts HEIC/CR2 images to PNG and optionally re-encodes PNGs
as size-capped JPEGs, processing files with a thread pool and aggregating
success/failure counts and size statistics.

Shallow embedding conventions:
- The external codec is abstracted by a function `sizeAt : Nat → ℚ` giving,
  for each JPEG quality level, the size in MB of the file produced by
  encoding the (already decoded and resized) image at that quality.
  The size-search loop of optimize_png only observes the encoded size,
  so this function is exactly the interface the loop consumes.
- Python exceptions are modelled by the `PyOutcome` sum type: the body of a
  try-block either completes with a value or raises with a message.
- Paths are lists of components; file names are lists of characters, so
  that extension handling is fully executable and provable.
- Sizes in MB are rationals (the real code uses floats; all claims checked
  here concern comparisons and sums where the rational model is faithful).
-/

namespace Script

/-! ### Pixel modes (optimize_png lines 37-39)

The script checks the decoded image mode against ('RGBA', 'P') and converts
to RGB in that case.  `PILMode` lists the standard PIL image modes;
`hasAlphaChannel` and `isPaletteMode` record which of them carry an alpha
channel or are palette-indexed, per the PIL mode documentation (the library
is external to the repository). -/

inductive PILMode where
  | one
  | L
  | LA
  | La
  | P
  | PA
  | RGB
  | RGBA
  | RGBa
  | RGBX
  | CMYK
  | YCbCr
  | LAB
  | HSV
  | I
  | F
deriving DecidableEq

/-- Modes that carry an alpha channel (PIL semantics: RGBA, RGBa, LA, La, PA). -/
def hasAlphaChannel : PILMode → Bool
  | PILMode.RGBA => true
  | PILMode.RGBa => true
  | PILMode.LA => true
  | PILMode.La => true
  | PILMode.PA => true
  | _ => false

/-- Palette-indexed modes (PIL semantics: P, PA). -/
def isPaletteMode : PILMode → Bool
  | PILMode.P => true
  | PILMode.PA => true
  | _ => false

/-- Lines 38-39 of script.py: `if img.mode in ('RGBA', 'P'): img = img.convert('RGB')`.
The mode of the image after this conditional conversion. -/
def optimizePreMode (m : PILMode) : PILMode :=
  if m = PILMode.RGBA ∨ m = PILMode.P then PILMode.RGB else m

/-! ### Downscaling (optimize_png lines 40-49)

`int(h * (max_dimension / w))` truncates toward zero; for nonnegative
operands this is the floor, modelled with `Nat.floor` over ℚ. -/

/-- Lines 40-49 of script.py: cap the longer dimension at 4000, scaling the
shorter one by the same factor with `int` truncation. -/
def resizeDims (w h : Nat) : Nat × Nat :=
  if w > 4000 ∨ h > 4000 then
    if w > h then (4000, ⌊(h : ℚ) * ((4000 : ℚ) / (w : ℚ))⌋₊)
    else (⌊(w : ℚ) * ((4000 : ℚ) / (h : ℚ))⌋₊, 4000)
  else (w, h)

/-! ### The size-search loop (optimize_png lines 51-57) -/

/-- Lines 51-57 of script.py: starting from the given quality (the caller
passes 90), encode, measure, and accept when the size is at most
`maxSizeMB` or the quality has dropped below 30; otherwise lower the
quality by 5 and retry.  Returns the pair (True, size of last encode). -/
def sizeSearchLoop (sizeAt : Nat → ℚ) (maxSizeMB : ℚ) (quality : Nat) : Bool × ℚ :=
  if sizeAt quality ≤ maxSizeMB ∨ quality < 30 then (true, sizeAt quality)
  else sizeSearchLoop sizeAt maxSizeMB (quality - 5)
termination_by quality
decreasing_by simp_wf; omega

/-- The number of encode attempts (`img.save` calls) the size-search loop
performs before returning. -/
def sizeSearchSteps (sizeAt : Nat → ℚ) (maxSizeMB : ℚ) (quality : Nat) : Nat :=
  if sizeAt quality ≤ maxSizeMB ∨ quality < 30 then 1
  else 1 + sizeSearchSteps sizeAt maxSizeMB (quality - 5)
termination_by quality
decreasing_by simp_wf; omega

/-- The acceptance test of line 55: `size_mb <= max_size_mb or quality < 30`. -/
def acceptsAt (sizeAt : Nat → ℚ) (maxSizeMB : ℚ) (q : Nat) : Bool :=
  decide (sizeAt q ≤ maxSizeMB) || decide (q < 30)

/-- The descending quality ladder the loop walks from a given start:
stop as soon as the quality is below 30 (that attempt always accepts). -/
def qualityLadder (q : Nat) : List Nat :=
  if q < 30 then [q] else q :: qualityLadder (q - 5)
termination_by q
decreasing_by simp_wf; omega

/-! ### Exception boundary and the three transforms (lines 13-60) -/

/-- Outcome of a Python try-block body: either a value or a raised exception. -/
inductive PyOutcome (α : Type) where
  | ok (a : α)
  | raised (msg : String)
deriving DecidableEq

/-- True when the body raised. -/
def PyOutcome.didRaise {α : Type} : PyOutcome α → Bool
  | PyOutcome.ok _ => false
  | PyOutcome.raised _ => true

/-- Lines 13-20 of script.py: the try-block decodes the HEIC file and saves
it as PNG; on completion return True, on any exception return False. -/
def convert_heic_to_png (body : PyOutcome Unit) : Bool :=
  match body with
  | PyOutcome.ok _ => true
  | PyOutcome.raised _ => false

/-- Lines 22-33 of script.py: same exception boundary as the HEIC variant. -/
def convert_cr2_to_png (body : PyOutcome Unit) : Bool :=
  match body with
  | PyOutcome.ok _ => true
  | PyOutcome.raised _ => false

/-- Lines 35-60 of script.py: on a decodable input (the try-block body
yields the per-quality encoded-size function) run the size-search loop from
quality 90; on any exception return (False, 0). -/
def optimize_png (body : PyOutcome (Nat → ℚ)) (maxSizeMB : ℚ) : Bool × ℚ :=
  match body with
  | PyOutcome.ok sizeAt => sizeSearchLoop sizeAt maxSizeMB 90
  | PyOutcome.raised _ => (false, 0)

/-! ### File enumeration (get_files_for_conversion lines 62-67, line 95)

A glob pattern of the form `**/*<ext>` selects exactly the files whose name
ends with `<ext>`, matched case-sensitively on a case-sensitive filesystem.
File names are lists of characters. -/

/-- `matchesTail pat s` : `pat` is a prefix of `s` (used on reversed lists). -/
def matchesTail : List Char → List Char → Bool
  | [], _ => true
  | _ :: _, [] => false
  | p :: ps, c :: cs => p = c && matchesTail ps cs

/-- The file name ends with the given extension (case-sensitive). -/
def nameEndsWith (name ext : List Char) : Bool :=
  matchesTail ext.reverse name.reverse

/-- Line 63 of script.py: the extension list used for conversion. -/
def conversionExts (ctype : String) : List (List Char) :=
  if ctype = "HEIC" then
    [".heic".toList, ".HEIC".toList, ".heif".toList, ".HEIF".toList]
  else
    [".cr2".toList, ".CR2".toList]

/-- Lines 62-67 of script.py: a file is enumerated for conversion when its
name matches one of the glob patterns `**/*<ext>` for the chosen type. -/
def conversionMatches (ctype : String) (name : List Char) : Bool :=
  (conversionExts ctype).any (fun ext => nameEndsWith name ext)

/-- Line 95 of script.py: `Path(input_dir).glob('**/*.png')` — optimization
enumerates exactly the files whose name ends with the lowercase `.png`. -/
def optimizationMatches (name : List Char) : Bool :=
  nameEndsWith name ".png".toList

/-! ### Path mapping (process_conversion lines 70-75, process_optimization
lines 100-106)

A path is a list of components.  `relativeTo` models
`PurePath.relative_to` (None when the root is not a prefix),
`withSuffixName` models `PurePath.with_suffix` on a file name, and
`mapToTask` composes them with the join under the output root. -/

/-- A filesystem path, as its list of components. -/
abbrev PathC := List String

/-- `Path.relative_to`: strip the root prefix, or fail. -/
def relativeTo : PathC → PathC → Option PathC
  | p, [] => some p
  | [], _ :: _ => none
  | c :: cs, r :: rs => if c = r then relativeTo cs rs else none

/-- Split a file name at the dots (executable model of suffix handling).
The result is always nonempty; a non-dot character extends the first
chunk. -/
def splitDots : List Char → List (List Char)
  | [] => [[]]
  | c :: cs =>
    if c = '.' then [] :: splitDots cs
    else (c :: (splitDots cs).headD []) :: (splitDots cs).tail

/-- Join character chunks with dots (inverse direction of `splitDots`). -/
def joinDots : List (List Char) → List Char
  | [] => []
  | [p] => p
  | p :: ps => p ++ '.' :: joinDots ps

/-- `PurePath.with_suffix` on a file name: a name has a suffix only when
its last dot sits strictly inside the name (not at index 0 and not at the
last index); then the part from that dot on is replaced by the new suffix.
A name with no dot, a name ending in a dot, or a hidden-file name whose
only dot is the leading one, has no suffix and the new one is appended
(so `c.` maps to `c..png`, and `.bashrc` to `.bashrc.png`). -/
def withSuffixName (name : List Char) (suffix : List Char) : List Char :=
  if (splitDots name).length ≤ 1 then name ++ suffix
  else if (splitDots name).getLastD [] = [] then name ++ suffix
  else if (splitDots name).length = 2 ∧ (splitDots name).headD [] = [] then name ++ suffix
  else joinDots (splitDots name).dropLast ++ suffix

/-- Lines 72-73 (and 103-104) of script.py:
`rel = f.relative_to(input_dir); out = Path(output_dir) / rel.with_suffix(ext)`.
None when the file is not under the input root or has no final component. -/
def mapToTask (p inRoot outRoot : PathC) (suffix : List Char) : Option PathC :=
  match relativeTo p inRoot with
  | none => none
  | some rel =>
    match rel.reverse with
    | [] => none
    | name :: revInit =>
      some (outRoot ++ revInit.reverse ++ [String.mk (withSuffixName name.toList suffix)])

/-- Lines 74 and 105 of script.py: `out.parent.mkdir(parents=True, exist_ok=True)`,
modelled on the set of existing directories. -/
def mkdirP (dirs : List PathC) (d : PathC) : List PathC :=
  if d ∈ dirs then dirs else d :: dirs

/-! ### Result aggregation (process_conversion lines 78-89,
process_optimization lines 100-122)

The `as_completed` iteration delivers one result per submitted task, in an
arbitrary order; the aggregation below is the exact fold the script
performs over that stream of results. -/

/-- Lines 78-89 of script.py: fold the stream of boolean results into the
(success, fail) counters. -/
def countResults (rs : List Bool) : Nat × Nat :=
  rs.foldl (fun sf r => if r then (sf.1 + 1, sf.2) else (sf.1, sf.2 + 1)) (0, 0)

/-- Lines 110-122 of script.py: fold the stream of optimization results
into (success, fail, total_optimized_size); only successful results add
their size. -/
def optAggregate (rs : List (Bool × ℚ)) : Nat × Nat × ℚ :=
  rs.foldl
    (fun acc r =>
      if r.1 then (acc.1 + 1, acc.2.1, acc.2.2 + r.2) else (acc.1, acc.2.1 + 1, acc.2.2))
    (0, 0, 0)

/-- Lines 101-107 of script.py: `total_original_size` accumulates the size
of every enumerated input file, before any task runs. -/
def totalOriginalSize (sizes : List ℚ) : ℚ :=
  sizes.foldl (fun acc s => acc + s) 0

/-! ### Basic unfolding lemmas for the size-search loop -/

theorem sizeSearchLoop_accept (sizeAt : Nat → ℚ) (maxSizeMB : ℚ) (q : Nat)
    (h : sizeAt q ≤ maxSizeMB ∨ q < 30) :
    sizeSearchLoop sizeAt maxSizeMB q = (true, sizeAt q) := by
  rw [sizeSearchLoop, if_pos h]

theorem sizeSearchLoop_reject (sizeAt : Nat → ℚ) (maxSizeMB : ℚ) (q : Nat)
    (h : ¬(sizeAt q ≤ maxSizeMB ∨ q < 30)) :
    sizeSearchLoop sizeAt maxSizeMB q = sizeSearchLoop sizeAt maxSizeMB (q - 5) := by
  rw [sizeSearchLoop]
  exact if_neg h

theorem sizeSearchSteps_accept (sizeAt : Nat → ℚ) (maxSizeMB : ℚ) (q : Nat)
    (h : sizeAt q ≤ maxSizeMB ∨ q < 30) :
    sizeSearchSteps sizeAt maxSizeMB q = 1 := by
  rw [sizeSearchSteps, if_pos h]

theorem sizeSearchSteps_reject (sizeAt : Nat → ℚ) (maxSizeMB : ℚ) (q : Nat)
    (h : ¬(sizeAt q ≤ maxSizeMB ∨ q < 30)) :
    sizeSearchSteps sizeAt maxSizeMB q = 1 + sizeSearchSteps sizeAt maxSizeMB (q - 5) := by
  rw [sizeSearchSteps]
  exact if_neg h

theorem qualityLadder_stop (q : Nat) (h : q < 30) : qualityLadder q = [q] := by
  rw [qualityLadder, if_pos h]

theorem qualityLadder_go (q : Nat) (h : ¬ q < 30) :
    qualityLadder q = q :: qualityLadder (q - 5) := by
  rw [qualityLadder, if_neg h]

/-- The concrete quality ladder walked from the starting quality 90. -/
theorem qualityLadder_90 :
    qualityLadder 90 = [90, 85, 80, 75, 70, 65, 60, 55, 50, 45, 40, 35, 30, 25] := by
  have l25 : qualityLadder 25 = [25] := qualityLadder_stop 25 (by norm_num)
  have l30 : qualityLadder 30 = [30, 25] := by
    rw [qualityLadder_go 30 (by norm_num)]; norm_num [l25]
  have l35 : qualityLadder 35 = [35, 30, 25] := by
    rw [qualityLadder_go 35 (by norm_num)]; norm_num [l30]
  have l40 : qualityLadder 40 = [40, 35, 30, 25] := by
    rw [qualityLadder_go 40 (by norm_num)]; norm_num [l35]
  have l45 : qualityLadder 45 = [45, 40, 35, 30, 25] := by
    rw [qualityLadder_go 45 (by norm_num)]; norm_num [l40]
  have l50 : qualityLadder 50 = [50, 45, 40, 35, 30, 25] := by
    rw [qualityLadder_go 50 (by norm_num)]; norm_num [l45]
  have l55 : qualityLadder 55 = [55, 50, 45, 40, 35, 30, 25] := by
    rw [qualityLadder_go 55 (by norm_num)]; norm_num [l50]
  have l60 : qualityLadder 60 = [60, 55, 50, 45, 40, 35, 30, 25] := by
    rw [qualityLadder_go 60 (by norm_num)]; norm_num [l55]
  have l65 : qualityLadder 65 = [65, 60, 55, 50, 45, 40, 35, 30, 25] := by
    rw [qualityLadder_go 65 (by norm_num)]; norm_num [l60]
  have l70 : qualityLadder 70 = [70, 65, 60, 55, 50, 45, 40, 35, 30, 25] := by
    rw [qualityLadder_go 70 (by norm_num)]; norm_num [l65]
  have l75 : qualityLadder 75 = [75, 70, 65, 60, 55, 50, 45, 40, 35, 30, 25] := by
    rw [qualityLadder_go 75 (by norm_num)]; norm_num [l70]
  have l80 : qualityLadder 80 = [80, 75, 70, 65, 60, 55, 50, 45, 40, 35, 30, 25] := by
    rw [qualityLadder_go 80 (by norm_num)]; norm_num [l75]
  have l85 : qualityLadder 85 = [85, 80, 75, 70, 65, 60, 55, 50, 45, 40, 35, 30, 25] := by
    rw [qualityLadder_go 85 (by norm_num)]; norm_num [l80]
  rw [qualityLadder_go 90 (by norm_num)]; norm_num [l85]

/-- The loop computes the first accepted quality on the ladder and returns
(true, measured size at that quality). -/
theorem sizeSearchLoop_find (sizeAt : Nat → ℚ) (maxSizeMB : ℚ) (q : Nat) :
    ∃ qa : Nat,
      (qualityLadder q).find? (acceptsAt sizeAt maxSizeMB) = some qa ∧
      sizeSearchLoop sizeAt maxSizeMB q = (true, sizeAt qa) := by
  induction q using Nat.strong_induction_on with
  | _ q ih =>
    by_cases h30 : q < 30
    · refine ⟨q, ?_, sizeSearchLoop_accept _ _ _ (Or.inr h30)⟩
      rw [qualityLadder_stop q h30]
      simp [List.find?, acceptsAt, h30]
    · by_cases hsz : sizeAt q ≤ maxSizeMB
      · refine ⟨q, ?_, sizeSearchLoop_accept _ _ _ (Or.inl hsz)⟩
        rw [qualityLadder_go q h30]
        simp [List.find?, acceptsAt, hsz]
      · obtain ⟨qa, hfind, hloop⟩ := ih (q - 5) (by omega)
        refine ⟨qa, ?_, ?_⟩
        · rw [qualityLadder_go q h30]
          simpa [List.find?, acceptsAt, hsz, h30] using hfind
        · rw [sizeSearchLoop_reject _ _ _ (fun hor => hor.elim hsz h30)]
          exact hloop

/-- Worst-case step count: at most `(q - 30) / 5 + 2` encodes from any
starting quality at least 30, and exactly one from below 30. -/
theorem sizeSearchSteps_bound (sizeAt : Nat → ℚ) (maxSizeMB : ℚ) (q : Nat) :
    sizeSearchSteps sizeAt maxSizeMB q ≤ if q < 30 then 1 else (q - 30) / 5 + 2 := by
  induction q using Nat.strong_induction_on with
  | _ q ih =>
    by_cases h30 : q < 30
    · rw [sizeSearchSteps_accept _ _ _ (Or.inr h30), if_pos h30]
    · rw [if_neg h30]
      by_cases hsz : sizeAt q ≤ maxSizeMB
      · rw [sizeSearchSteps_accept _ _ _ (Or.inl hsz)]
        omega
      · rw [sizeSearchSteps_reject _ _ _ (fun hor => hor.elim hsz h30)]
        have hb := ih (q - 5) (by omega)
        by_cases h35 : q - 5 < 30
        · rw [if_pos h35] at hb
          omega
        · rw [if_neg h35] at hb
          omega

/-- Evaluation of the step count on an input that is oversized at every
quality (every encode produces 1 MB against a 0 MB cap): the loop encodes
at 90, 85, ..., 30 and once more at the floor quality 25, so 14 times. -/
theorem sizeSearchSteps_worst : sizeSearchSteps (fun _ => (1 : ℚ)) 0 90 = 14 := by
  have hr : ∀ q : Nat, ¬ q < 30 →
      sizeSearchSteps (fun _ => (1 : ℚ)) 0 q = 1 + sizeSearchSteps (fun _ => (1 : ℚ)) 0 (q - 5) := by
    intro q hq
    refine sizeSearchSteps_reject _ _ _ ?_
    rintro (h | h)
    · norm_num at h
    · exact hq h
  have e25 : sizeSearchSteps (fun _ => (1 : ℚ)) 0 25 = 1 :=
    sizeSearchSteps_accept _ _ _ (Or.inr (by norm_num))
  have e30 : sizeSearchSteps (fun _ => (1 : ℚ)) 0 30 = 2 := by
    rw [hr 30 (by norm_num)]; norm_num [e25]
  have e35 : sizeSearchSteps (fun _ => (1 : ℚ)) 0 35 = 3 := by
    rw [hr 35 (by norm_num)]; norm_num [e30]
  have e40 : sizeSearchSteps (fun _ => (1 : ℚ)) 0 40 = 4 := by
    rw [hr 40 (by norm_num)]; norm_num [e35]
  have e45 : sizeSearchSteps (fun _ => (1 : ℚ)) 0 45 = 5 := by
    rw [hr 45 (by norm_num)]; norm_num [e40]
  have e50 : sizeSearchSteps (fun _ => (1 : ℚ)) 0 50 = 6 := by
    rw [hr 50 (by norm_num)]; norm_num [e45]
  have e55 : sizeSearchSteps (fun _ => (1 : ℚ)) 0 55 = 7 := by
    rw [hr 55 (by norm_num)]; norm_num [e50]
  have e60 : sizeSearchSteps (fun _ => (1 : ℚ)) 0 60 = 8 := by
    rw [hr 60 (by norm_num)]; norm_num [e55]
  have e65 : sizeSearchSteps (fun _ => (1 : ℚ)) 0 65 = 9 := by
    rw [hr 65 (by norm_num)]; norm_num [e60]
  have e70 : sizeSearchSteps (fun _ => (1 : ℚ)) 0 70 = 10 := by
    rw [hr 70 (by norm_num)]; norm_num [e65]
  have e75 : sizeSearchSteps (fun _ => (1 : ℚ)) 0 75 = 11 := by
    rw [hr 75 (by norm_num)]; norm_num [e70]
  have e80 : sizeSearchSteps (fun _ => (1 : ℚ)) 0 80 = 12 := by
    rw [hr 80 (by norm_num)]; norm_num [e75]
  have e85 : sizeSearchSteps (fun _ => (1 : ℚ)) 0 85 = 13 := by
    rw [hr 85 (by norm_num)]; norm_num [e80]
  rw [hr 90 (by norm_num)]; norm_num [e85]

/-- The size search as the specification words it: walk the qualities
90, 85, ..., 30, 25 in order, accept the first quality whose measured size
is at most the cap or which lies below 30, and return (true, size measured
at the accepted quality). -/
def specSizeSearch (sizeAt : Nat → ℚ) (maxSizeMB : ℚ) : Option (Bool × ℚ) :=
  ([90, 85, 80, 75, 70, 65, 60, 55, 50, 45, 40, 35, 30, 25].find?
      (acceptsAt sizeAt maxSizeMB)).map (fun q => (true, sizeAt q))

/-- Claim C2: for every decodable input and every size cap, the size-search
loop starts at quality 90, accepts exactly when the measured size is at
most the cap or the quality is strictly below 30 (accepting even an
oversized result at the floor), otherwise decrements the quality by 5 and
re-encodes, and on acceptance returns (true, size of the last encode) —
that is, optimize_png on a decodable input agrees with the specification
description of the search. -/
theorem claim_C2_size_search (sizeAt : Nat → ℚ) (maxSizeMB : ℚ) :
    specSizeSearch sizeAt maxSizeMB =
      some (optimize_png (PyOutcome.ok sizeAt) maxSizeMB) := by
  obtain ⟨qa, hfind, hloop⟩ := sizeSearchLoop_find sizeAt maxSizeMB 90
  rw [qualityLadder_90] at hfind
  simp only [specSizeSearch, hfind, Option.map_some]
  simp [optimize_png, hloop]

/-- Claim C3 counterexample: on an input that stays oversized at every
quality (1 MB encodes against a 0 MB cap) the loop performs 14 encode
attempts, not at most 13 — it encodes at 90, 85, ..., 30 (13 attempts) and
then once more at the floor quality 25. -/
theorem claim_C3_counterexample :
    sizeSearchSteps (fun _ => (1 : ℚ)) 0 90 = 14 ∧
      13 < sizeSearchSteps (fun _ => (1 : ℚ)) 0 90 := by
  rw [sizeSearchSteps_worst]
  norm_num

/-- Claim C3 (amended): for every decodable input and every size cap, the
size-search loop terminates within at most 14 encode attempts — the 13
qualities 90 down to 30 in steps of 5 plus the sub-30 floor attempt. -/
theorem claim_C3_termination (sizeAt : Nat → ℚ) (maxSizeMB : ℚ) :
    sizeSearchSteps sizeAt maxSizeMB 90 ≤ 14 := by
  have hb := sizeSearchSteps_bound sizeAt maxSizeMB 90
  norm_num at hb
  exact hb

/-- Claim C4: when the encode at the starting quality 90 is already within
the size cap, the loop performs exactly one encode attempt and returns
success with that measured size. -/
theorem claim_C4_first_attempt (sizeAt : Nat → ℚ) (maxSizeMB : ℚ)
    (h : sizeAt 90 ≤ maxSizeMB) :
    sizeSearchSteps sizeAt maxSizeMB 90 = 1 ∧
      optimize_png (PyOutcome.ok sizeAt) maxSizeMB = (true, sizeAt 90) := by
  constructor
  · exact sizeSearchSteps_accept _ _ _ (Or.inl h)
  · simpa [optimize_png] using sizeSearchLoop_accept sizeAt maxSizeMB 90 (Or.inl h)

/-- Witness for claim C4 at a concrete input: every encode measures 0 MB
against a 15 MB cap, so the hypothesis holds and the loop stops after one
attempt. -/
theorem claim_C4_first_attempt_witness :
    ((fun _ => (0 : ℚ)) 90 ≤ 15) ∧
      (sizeSearchSteps (fun _ => (0 : ℚ)) 15 90 = 1 ∧
        optimize_png (PyOutcome.ok (fun _ => (0 : ℚ))) 15 = (true, 0)) :=
  ⟨by norm_num, claim_C4_first_attempt (fun _ => (0 : ℚ)) 15 (by norm_num)⟩

/-! ### Downscaling lemmas -/

/-- The scaled shorter side is the integer truncation of the exact ratio,
which for nonnegative values is natural-number division. -/
theorem resize_floor (w h : Nat) :
    ⌊(h : ℚ) * ((4000 : ℚ) / (w : ℚ))⌋₊ = h * 4000 / w := by
  have hcast : (h : ℚ) * ((4000 : ℚ) / (w : ℚ)) = ((h * 4000 : ℕ) : ℚ) / ((w : ℕ) : ℚ) := by
    push_cast
    ring
  rw [hcast, Nat.floor_div_eq_div]

/-- Concrete evaluation: a 6000 by 4000 image is resized to 4000 by 2666
(the exact ratio 2666.67 is truncated by int, not rounded). -/
theorem resizeDims_6000_4000 : resizeDims 6000 4000 = (4000, 2666) := by
  rw [resizeDims, if_pos (by norm_num : (6000 : ℕ) > 4000 ∨ (4000 : ℕ) > 4000),
    if_pos (by norm_num : (6000 : ℕ) > (4000 : ℕ)), resize_floor]

/-- Claim C5 counterexample: the claim predicts that a 6000 by 4000 input
is resized to 4000 by 2667 (rounding 2666.67 up); the code truncates with
int and produces 4000 by 2666. -/
theorem claim_C5_counterexample :
    resizeDims 6000 4000 = (4000, 2666) ∧ (resizeDims 6000 4000).2 < 2667 := by
  rw [resizeDims_6000_4000]
  norm_num

/-- Claim C5 (amended): for every image whose longer dimension exceeds
4000 pixels, optimization downscales so the longer side equals 4000 and
the shorter side equals the truncation (floor, not round) of
shortSide * 4000 / longSide; in particular a 6000 by 4000 input is resized
to 4000 by 2666. -/
theorem claim_C5_downscale (w h : Nat) (hw : 4000 < w) (hwh : h < w) :
    resizeDims w h = (4000, h * 4000 / w) ∧
      resizeDims h w = (h * 4000 / w, 4000) ∧
      resizeDims 6000 4000 = (4000, 2666) := by
  refine ⟨?_, ?_, resizeDims_6000_4000⟩
  · rw [resizeDims, if_pos (Or.inl hw), if_pos hwh, resize_floor]
  · rw [resizeDims, if_pos (Or.inr hw), if_neg (by omega), resize_floor]

/-- Witness for claim C5 at the concrete 6000 by 4000 input. -/
theorem claim_C5_downscale_witness :
    (4000 < 6000 ∧ 4000 < 6000) ∧
      (resizeDims 6000 4000 = (4000, 4000 * 4000 / 6000) ∧
        resizeDims 4000 6000 = (4000 * 4000 / 6000, 4000) ∧
        resizeDims 6000 4000 = (4000, 2666)) :=
  ⟨⟨by norm_num, by norm_num⟩, claim_C5_downscale 6000 4000 (by norm_num) (by norm_num)⟩

/-! ### Pixel-mode lemmas -/

/-- Claim C6 counterexample: the LA mode (grayscale with alpha) carries an
alpha channel, yet the code leaves it unchanged — it only converts the
modes RGBA and P — so an alpha-carrying image reaches the encode attempts
still carrying alpha, contrary to the claim. -/
theorem claim_C6_counterexample :
    hasAlphaChannel PILMode.LA = true ∧
      optimizePreMode PILMode.LA = PILMode.LA ∧
      hasAlphaChannel (optimizePreMode PILMode.LA) = true := by
  refine ⟨rfl, ?_, ?_⟩ <;> decide

/-- Claim C6 (amended): before any encode attempt the decoded image is
converted to RGB exactly when its mode is RGBA or palette-indexed P; every
other mode — including the alpha-carrying modes LA, La, PA and RGBa — is
passed through unchanged. -/
theorem claim_C6_mode_conversion (m : PILMode) :
    (optimizePreMode m = PILMode.RGB ↔ (m = PILMode.RGBA ∨ m = PILMode.P ∨ m = PILMode.RGB)) ∧
      (m = PILMode.RGBA ∨ m = PILMode.P → optimizePreMode m = PILMode.RGB) ∧
      (hasAlphaChannel m = true ∧ m ≠ PILMode.RGBA → optimizePreMode m = m) := by
  cases m <;> decide

/-- Witness for claim C6: the RGBA mode is converted to RGB, and the
alpha-carrying LA mode is passed through unchanged. -/
theorem claim_C6_mode_conversion_witness :
    ((PILMode.RGBA = PILMode.RGBA ∨ PILMode.RGBA = PILMode.P) ∧
        optimizePreMode PILMode.RGBA = PILMode.RGB) ∧
      ((hasAlphaChannel PILMode.LA = true ∧ PILMode.LA ≠ PILMode.RGBA) ∧
        optimizePreMode PILMode.LA = PILMode.LA) :=
  ⟨⟨Or.inl rfl, (claim_C6_mode_conversion PILMode.RGBA).2.1 (Or.inl rfl)⟩,
    ⟨⟨rfl, by decide⟩, (claim_C6_mode_conversion PILMode.LA).2.2 ⟨rfl, by decide⟩⟩⟩

/-! ### Aggregation lemmas -/

/-- The counter fold of lines 78-89 counts exactly the true results as
successes and the false results as failures. -/
theorem countResults_eq (rs : List Bool) :
    countResults rs = (rs.countP (fun r => r), rs.countP (fun r => !r)) := by
  suffices h : ∀ (rs : List Bool) (s f : Nat),
      rs.foldl (fun sf r => if r then (sf.1 + 1, sf.2) else (sf.1, sf.2 + 1)) (s, f) =
        (s + rs.countP (fun r => r), f + rs.countP (fun r => !r)) by
    simpa using h rs 0 0
  intro rs
  induction rs with
  | nil => intro s f; simp
  | cons r rs ih =>
    intro s f
    cases r <;> simp [List.countP_cons, ih] <;> omega

/-- Every boolean result is counted exactly once, as a success or failure. -/
theorem countP_bool_total {α : Type} (p : α → Bool) (l : List α) :
    l.countP p + l.countP (fun a => !(p a)) = l.length := by
  induction l with
  | nil => simp
  | cons a l ih =>
    by_cases h : p a = true <;> simp [List.countP_cons, h] <;> omega

/-- The optimization fold of lines 110-122: success and failure counters
count the true and false results, and the size total accumulates the size
of the successful results only. -/
theorem optAggregate_eq (rs : List (Bool × ℚ)) :
    optAggregate rs =
      (rs.countP (fun r => r.1), rs.countP (fun r => !r.1),
        ((rs.filter (fun r => r.1)).map (fun r => r.2)).sum) := by
  suffices h : ∀ (rs : List (Bool × ℚ)) (s f : Nat) (t : ℚ),
      rs.foldl
        (fun acc r =>
          if r.1 then (acc.1 + 1, acc.2.1, acc.2.2 + r.2) else (acc.1, acc.2.1 + 1, acc.2.2))
        (s, f, t) =
        (s + rs.countP (fun r => r.1), f + rs.countP (fun r => !r.1),
          t + ((rs.filter (fun r => r.1)).map (fun r => r.2)).sum) by
    simpa using h rs 0 0 0
  intro rs
  induction rs with
  | nil => intro s f t; simp
  | cons r rs ih =>
    intro s f t
    obtain ⟨ok, mb⟩ := r
    cases ok <;> simp [List.countP_cons, List.filter_cons, ih] <;> (try constructor) <;>
      (first | trivial | omega | ring)

/-- The original-size accumulation of lines 101-107 is the plain sum. -/
theorem totalOriginalSize_eq (sizes : List ℚ) : totalOriginalSize sizes = sizes.sum := by
  suffices h : ∀ (sizes : List ℚ) (a : ℚ),
      sizes.foldl (fun acc s => acc + s) a = a + sizes.sum by
    simpa using h sizes 0
  intro sizes
  induction sizes with
  | nil => intro a; simp
  | cons s sizes ih => intro a; simp [ih]; ring

/-- Claim C1: in every run of the worker pool, each dispatched task
contributes exactly one result — delivered in an arbitrary completion
order, i.e. any permutation of the task list — and the final counters
satisfy successCount + failureCount = number of tasks, both for the
conversion pool (boolean results) and for the optimization pool. -/
theorem claim_C1_counts {α : Type} (tasks : List α) (res : α → Bool)
    (ores : α → Bool × ℚ) (order : List α) (hperm : order.Perm tasks) :
    (countResults (order.map res)).1 + (countResults (order.map res)).2 = tasks.length ∧
      (optAggregate (order.map ores)).1 + (optAggregate (order.map ores)).2.1 =
        tasks.length := by
  have hlen : order.length = tasks.length := hperm.length_eq
  constructor
  · rw [countResults_eq]
    simpa [List.countP_map, hlen] using
      countP_bool_total (fun a => res a) order |>.trans hlen
  · rw [optAggregate_eq]
    simpa [List.countP_map, hlen] using
      countP_bool_total (fun a => (ores a).1) order |>.trans hlen

/-- Witness for claim C1 on a three-task run completing out of dispatch
order. -/
theorem claim_C1_counts_witness :
    List.Perm [2, 0, 1] [0, 1, 2] ∧
      ((countResults ([2, 0, 1].map (fun n => decide (n = 0)))).1 +
          (countResults ([2, 0, 1].map (fun n => decide (n = 0)))).2 = [0, 1, 2].length ∧
        (optAggregate ([2, 0, 1].map (fun n => (decide (n = 0), (1 : ℚ))))).1 +
            (optAggregate ([2, 0, 1].map (fun n => (decide (n = 0), (1 : ℚ))))).2.1 =
          [0, 1, 2].length) :=
  ⟨by decide, claim_C1_counts [0, 1, 2] (fun n => decide (n = 0))
    (fun n => (decide (n = 0), (1 : ℚ))) [2, 0, 1] (by decide)⟩

/-- Each conversion transform reports success exactly when its body did not
raise. -/
theorem convert_eq_not_didRaise (body : PyOutcome Unit) :
    convert_heic_to_png body = !body.didRaise ∧ convert_cr2_to_png body = !body.didRaise := by
  cases body <;> simp [convert_heic_to_png, convert_cr2_to_png, PyOutcome.didRaise]

/-- Claim C8: every exception inside a transform body is caught at the
transform boundary and becomes a failure result — false for the conversion
variants, (false, 0) for optimization — and never propagates: for any run
whose bodies contain exactly one raising body, the pool still processes
every task and ends with successCount = N - 1 and failureCount = 1. -/
theorem claim_C8_error_isolation (bodies : List (PyOutcome Unit))
    (hone : bodies.countP (fun b => b.didRaise) = 1) :
    (∀ msg : String, convert_heic_to_png (PyOutcome.raised msg) = false ∧
        convert_cr2_to_png (PyOutcome.raised msg) = false) ∧
      (∀ (msg : String) (maxSizeMB : ℚ),
        optimize_png (PyOutcome.raised msg) maxSizeMB = (false, 0)) ∧
      (countResults (bodies.map convert_heic_to_png)).1 = bodies.length - 1 ∧
      (countResults (bodies.map convert_heic_to_png)).2 = 1 := by
  have h1 : (bodies.map convert_heic_to_png).countP (fun r => r) =
      bodies.countP (fun b => !b.didRaise) := by
    rw [List.countP_map]
    congr 1
    funext b
    cases b <;> rfl
  have h2 : (bodies.map convert_heic_to_png).countP (fun r => !r) =
      bodies.countP (fun b => b.didRaise) := by
    rw [List.countP_map]
    congr 1
    funext b
    cases b <;> rfl
  have htot := countP_bool_total (fun b : PyOutcome Unit => b.didRaise) bodies
  refine ⟨fun msg => ⟨rfl, rfl⟩, fun msg maxSizeMB => rfl, ?_, ?_⟩
  · rw [countResults_eq]
    simp only [h1]
    omega
  · rw [countResults_eq]
    simp only [h2]
    exact hone

/-- Witness for claim C8: three tasks, the middle one raising, yield two
successes and one failure. -/
theorem claim_C8_error_isolation_witness :
    ([PyOutcome.ok (), PyOutcome.raised "corrupt", PyOutcome.ok ()].countP
        (fun b => b.didRaise) = 1) ∧
      ((∀ msg : String, convert_heic_to_png (PyOutcome.raised msg) = false ∧
          convert_cr2_to_png (PyOutcome.raised msg) = false) ∧
        (∀ (msg : String) (maxSizeMB : ℚ),
          optimize_png (PyOutcome.raised msg) maxSizeMB = (false, 0)) ∧
        (countResults ([PyOutcome.ok (), PyOutcome.raised "corrupt",
            PyOutcome.ok ()].map convert_heic_to_png)).1 =
          [PyOutcome.ok (), PyOutcome.raised "corrupt", PyOutcome.ok ()].length - 1 ∧
        (countResults ([PyOutcome.ok (), PyOutcome.raised "corrupt",
            PyOutcome.ok ()].map convert_heic_to_png)).2 = 1) :=
  ⟨by rfl, claim_C8_error_isolation
    [PyOutcome.ok (), PyOutcome.raised "corrupt", PyOutcome.ok ()] (by rfl)⟩

/-- Summing the sizes of the successful results equals summing, over all
results, the size for successes and 0 for failures. -/
theorem sum_filter_eq_sum_ite (rs : List (Bool × ℚ)) :
    ((rs.filter (fun r => r.1)).map (fun r => r.2)).sum =
      (rs.map (fun r => if r.1 then r.2 else 0)).sum := by
  induction rs with
  | nil => simp
  | cons r rs ih =>
    obtain ⟨ok, mb⟩ := r
    cases ok <;> simp [List.filter_cons, ih]

/-- Claim C10: in every optimization run — with completions delivered in
any order — the original-size total is the sum of the sizes of all
enumerated input files, including the ones whose optimization fails, while
the output-size total is the sum of the returned size metrics over the
successful results only, failed results contributing 0. -/
theorem claim_C10_size_totals (files : List (ℚ × Bool × ℚ))
    (order : List (ℚ × Bool × ℚ)) (hperm : order.Perm files) :
    totalOriginalSize (files.map (fun f => f.1)) = (files.map (fun f => f.1)).sum ∧
      (optAggregate (order.map (fun f => f.2))).2.2 =
        (((order.map (fun f => f.2)).filter (fun r => r.1)).map (fun r => r.2)).sum ∧
      (optAggregate (order.map (fun f => f.2))).2.2 =
        ((order.map (fun f => f.2)).map (fun r => if r.1 then r.2 else 0)).sum := by
  refine ⟨totalOriginalSize_eq _, ?_, ?_⟩
  · rw [optAggregate_eq]
  · rw [optAggregate_eq]
    exact sum_filter_eq_sum_ite _

/-- Witness for claim C10 on a concrete two-file run (one success of 3 MB,
one failure) whose completions arrive in reversed order. -/
theorem claim_C10_size_totals_witness :
    List.Perm [((7 : ℚ), false, (0 : ℚ)), ((5 : ℚ), true, (3 : ℚ))]
        [((5 : ℚ), true, (3 : ℚ)), ((7 : ℚ), false, (0 : ℚ))] ∧
      (totalOriginalSize ([((5 : ℚ), true, (3 : ℚ)), ((7 : ℚ), false, (0 : ℚ))].map
          (fun f => f.1)) =
        ([((5 : ℚ), true, (3 : ℚ)), ((7 : ℚ), false, (0 : ℚ))].map (fun f => f.1)).sum ∧
      (optAggregate ([((7 : ℚ), false, (0 : ℚ)), ((5 : ℚ), true, (3 : ℚ))].map
          (fun f => f.2))).2.2 =
        ((([((7 : ℚ), false, (0 : ℚ)), ((5 : ℚ), true, (3 : ℚ))].map
            (fun f => f.2)).filter (fun r => r.1)).map (fun r => r.2)).sum ∧
      (optAggregate ([((7 : ℚ), false, (0 : ℚ)), ((5 : ℚ), true, (3 : ℚ))].map
          (fun f => f.2))).2.2 =
        (([((7 : ℚ), false, (0 : ℚ)), ((5 : ℚ), true, (3 : ℚ))].map
            (fun f => f.2)).map (fun r => if r.1 then r.2 else 0)).sum) :=
  ⟨List.Perm.swap _ _ _, claim_C10_size_totals
    [((5 : ℚ), true, (3 : ℚ)), ((7 : ℚ), false, (0 : ℚ))]
    [((7 : ℚ), false, (0 : ℚ)), ((5 : ℚ), true, (3 : ℚ))] (List.Perm.swap _ _ _)⟩

/-! ### Path-mapping lemmas -/

/-- Stripping a root prefix from a path under that root yields the
relative remainder. -/
theorem relativeTo_append (root rest : PathC) :
    relativeTo (root ++ rest) root = some rest := by
  induction root with
  | nil => cases rest <;> rfl
  | cons r root ih => simp [relativeTo, ih]

/-- Splitting at dots never yields the empty list of chunks. -/
theorem splitDots_ne_nil (l : List Char) : splitDots l ≠ [] := by
  cases l with
  | nil => simp [splitDots]
  | cons c cs => by_cases hc : c = '.' <;> simp [splitDots, hc]

/-- The nonemptiness of `splitDots`, in existential form. -/
theorem splitDots_cons_ex (cs : List Char) : ∃ p ps, splitDots cs = p :: ps := by
  cases h : splitDots cs with
  | nil => exact absurd h (splitDots_ne_nil cs)
  | cons p ps => exact ⟨p, ps, rfl⟩

/-- Splitting a concatenation around a dot splits each side. -/
theorem splitDots_append_dot (a b : List Char) :
    splitDots (a ++ '.' :: b) = splitDots a ++ splitDots b := by
  induction a with
  | nil => simp [splitDots]
  | cons c cs ih =>
    obtain ⟨p, ps, hps⟩ := splitDots_cons_ex cs
    by_cases hc : c = '.'
    · subst hc
      simp [splitDots, ih]
    · simp [splitDots, hc, ih, hps]

/-- A dot-free name is a single chunk. -/
theorem splitDots_no_dot (l : List Char) (h : '.' ∉ l) : splitDots l = [l] := by
  induction l with
  | nil => rfl
  | cons c cs ih =>
    have hc : c ≠ '.' := fun hcc => h (hcc ▸ List.mem_cons_self c cs)
    have hcs : '.' ∉ cs := fun hm => h (List.mem_cons_of_mem c hm)
    simp [splitDots, hc, ih hcs]

/-- A name splitting into a single chunk is that chunk. -/
theorem splitDots_singleton (l x : List Char) (h : splitDots l = [x]) : x = l := by
  induction l generalizing x with
  | nil =>
    simp [splitDots] at h
    exact h
  | cons c cs ih =>
    obtain ⟨p, ps, hps⟩ := splitDots_cons_ex cs
    by_cases hc : c = '.'
    · subst hc
      rw [splitDots] at h
      simp [hps] at h
    · rw [splitDots] at h
      simp [hc, hps] at h
      obtain ⟨hx, hcons⟩ := h
      have : p = cs := ih p (by rw [hps, hcons])
      rw [← hx, this]

/-- Joining the dot-chunks recovers the name. -/
theorem joinDots_splitDots (l : List Char) : joinDots (splitDots l) = l := by
  induction l with
  | nil => rfl
  | cons c cs ih =>
    obtain ⟨p, ps, hps⟩ := splitDots_cons_ex cs
    by_cases hc : c = '.'
    · subst hc
      rw [splitDots, if_pos rfl, hps]
      rw [hps] at ih
      simp [joinDots, ih]
    · rw [splitDots, if_neg hc, hps]
      cases ps with
      | nil =>
        rw [hps] at ih
        simp [joinDots] at ih ⊢
        simp [ih]
      | cons q qs =>
        rw [hps] at ih
        simp [joinDots] at ih ⊢
        simp [ih]

/-- Rewriting the extension of any name whose last dot sits strictly
inside it (arbitrary stem, possibly containing further dots; nonempty
dot-free extension) replaces everything after that last dot. -/
theorem withSuffixName_eq (stem ext suffix : List Char)
    (hstem : stem ≠ []) (hext : ext ≠ []) (hdot : '.' ∉ ext) :
    withSuffixName (stem ++ '.' :: ext) suffix = stem ++ suffix := by
  have hsplit : splitDots (stem ++ '.' :: ext) = splitDots stem ++ [ext] := by
    rw [splitDots_append_dot, splitDots_no_dot ext hdot]
  have hS := splitDots_ne_nil stem
  have h1 : ¬((splitDots stem ++ [ext]).length ≤ 1) := by
    intro hc
    simp only [List.length_append, List.length_singleton] at hc
    exact hS (List.length_eq_zero.mp (by omega))
  have h2 : ¬((splitDots stem ++ [ext]).getLastD [] = []) := by
    rw [List.getLastD_concat]
    exact hext
  have h3 : ¬(((splitDots stem ++ [ext]).length = 2) ∧
      ((splitDots stem ++ [ext]).headD [] = [])) := by
    rintro ⟨hlen, hhead⟩
    simp only [List.length_append, List.length_singleton] at hlen
    have hl1 : (splitDots stem).length = 1 := by omega
    obtain ⟨x, hx⟩ := List.length_eq_one.mp hl1
    rw [hx] at hhead
    simp at hhead
    rw [splitDots_singleton stem x hx] at hhead
    exact hstem hhead
  rw [withSuffixName]
  simp only [hsplit]
  rw [if_neg h1, if_neg h2, if_neg h3, List.dropLast_concat, joinDots_splitDots]

/-- mkdir with exist_ok is idempotent. -/
theorem mkdirP_idem (dirs : List PathC) (d : PathC) :
    mkdirP (mkdirP dirs d) d = mkdirP dirs d := by
  by_cases h : d ∈ dirs <;> simp [mkdirP, h]

/-- Claim C7: task mapping computes the path relative to the input root,
rewrites its extension to the target extension, joins the result under the
output root, and creates the parent directory idempotently.  The general
statement covers every enumerated file name whose last dot sits strictly
inside the name — the stem may itself contain dots, as in a.b.heic; in
particular inputRoot /a, file /a/b/c.heic, outputRoot /out maps to
/out/b/c.png, a.b.heic maps to a.b.png, and the suffixless trailing-dot
name c. gets .png appended, giving c..png. -/
theorem claim_C7_path_mapping (inRoot sub outRoot : PathC)
    (stem ext suffix : List Char) (dirs : List PathC)
    (hstem : stem ≠ []) (hext : ext ≠ []) (hdot : '.' ∉ ext) :
    mapToTask (inRoot ++ sub ++ [String.mk (stem ++ '.' :: ext)]) inRoot outRoot suffix =
        some (outRoot ++ sub ++ [String.mk (stem ++ suffix)]) ∧
      mkdirP (mkdirP dirs (outRoot ++ sub)) (outRoot ++ sub) = mkdirP dirs (outRoot ++ sub) ∧
      mapToTask ["a", "b", "c.heic"] ["a"] ["out"] ".png".toList =
        some ["out", "b", "c.png"] ∧
      mapToTask ["a", "b", "a.b.heic"] ["a"] ["out"] ".png".toList =
        some ["out", "b", "a.b.png"] ∧
      mapToTask ["a", "b", "c."] ["a"] ["out"] ".png".toList =
        some ["out", "b", "c..png"] := by
  refine ⟨?_, mkdirP_idem dirs (outRoot ++ sub), by decide, by decide, by decide⟩
  rw [mapToTask, List.append_assoc, relativeTo_append]
  simp only [List.reverse_append, List.reverse_cons, List.reverse_nil, List.nil_append,
    List.cons_append, List.reverse_reverse]
  simp [String.toList, withSuffixName_eq stem ext suffix hstem hext hdot, List.append_assoc]

/-- Witness for claim C7 at the concrete input /a/b/a.b.heic, whose stem
itself contains a dot. -/
theorem claim_C7_path_mapping_witness :
    ("a.b".toList ≠ [] ∧ "heic".toList ≠ [] ∧ '.' ∉ "heic".toList) ∧
      (mapToTask (["a"] ++ ["b"] ++ [String.mk ("a.b".toList ++ '.' :: "heic".toList)])
            ["a"] ["out"] ".png".toList =
          some (["out"] ++ ["b"] ++ [String.mk ("a.b".toList ++ ".png".toList)]) ∧
        mkdirP (mkdirP [] (["out"] ++ ["b"])) (["out"] ++ ["b"]) =
          mkdirP [] (["out"] ++ ["b"]) ∧
        mapToTask ["a", "b", "c.heic"] ["a"] ["out"] ".png".toList =
          some ["out", "b", "c.png"] ∧
        mapToTask ["a", "b", "a.b.heic"] ["a"] ["out"] ".png".toList =
          some ["out", "b", "a.b.png"] ∧
        mapToTask ["a", "b", "c."] ["a"] ["out"] ".png".toList =
          some ["out", "b", "c..png"]) :=
  ⟨⟨by decide, by decide, by decide⟩,
    claim_C7_path_mapping ["a"] ["b"] ["out"] "a.b".toList "heic".toList ".png".toList []
      (by decide) (by decide) (by decide)⟩

/-! ### Enumeration lemmas -/

/-- Two successful prefix matches of the same length against the same list
are the same pattern. -/
theorem matchesTail_unique :
    ∀ (p1 p2 s : List Char), p1.length = p2.length →
      matchesTail p1 s = true → matchesTail p2 s = true → p1 = p2 := by
  intro p1
  induction p1 with
  | nil =>
    intro p2 s hlen _ _
    cases p2 with
    | nil => rfl
    | cons b p2 => simp at hlen
  | cons a p1 ih =>
    intro p2 s hlen h1 h2
    cases p2 with
    | nil => simp at hlen
    | cons b p2 =>
      cases s with
      | nil => simp [matchesTail] at h1
      | cons c cs =>
        simp only [matchesTail, Bool.and_eq_true, decide_eq_true_eq] at h1 h2
        obtain ⟨rfl, h1⟩ := h1
        obtain ⟨rfl, h2⟩ := h2
        have : p1 = p2 := ih p2 cs (by simpa using hlen) h1 h2
        rw [this]

/-- A name can end with only one extension of each length. -/
theorem nameEndsWith_unique (name e1 e2 : List Char) (hlen : e1.length = e2.length)
    (h1 : nameEndsWith name e1 = true) (h2 : nameEndsWith name e2 = true) : e1 = e2 := by
  have := matchesTail_unique e1.reverse e2.reverse name.reverse
    (by simpa using hlen) h1 h2
  simpa using congrArg List.reverse this

/-- Claim C9: the optimization stage enumerates only files whose name ends
in the lowercase extension .png — a file whose 4-character extension is any
other casing (such as .PNG) produces no optimization task — while the
conversion enumerator matches both the lowercase and the uppercase variants
of its extensions. -/
theorem claim_C9_case_sensitivity (name ext : List Char)
    (hlen : ext.length = 4) (hne : ext ≠ ".png".toList)
    (hend : nameEndsWith name ext = true) :
    optimizationMatches name = false ∧
      conversionMatches "HEIC" "photo.heic".toList = true ∧
      conversionMatches "HEIC" "photo.HEIC".toList = true ∧
      conversionMatches "CR2" "photo.cr2".toList = true ∧
      conversionMatches "CR2" "photo.CR2".toList = true := by
  refine ⟨?_, by decide, by decide, by decide, by decide⟩
  cases hopt : optimizationMatches name with
  | false => rfl
  | true =>
    exact absurd (nameEndsWith_unique name ext ".png".toList (by simpa using hlen) hend hopt)
      hne

/-- Witness for claim C9: a file named photo.PNG is skipped by the
optimization enumerator. -/
theorem claim_C9_case_sensitivity_witness :
    (".PNG".toList.length = 4 ∧ ".PNG".toList ≠ ".png".toList ∧
        nameEndsWith "photo.PNG".toList ".PNG".toList = true) ∧
      (optimizationMatches "photo.PNG".toList = false ∧
        conversionMatches "HEIC" "photo.heic".toList = true ∧
        conversionMatches "HEIC" "photo.HEIC".toList = true ∧
        conversionMatches "CR2" "photo.cr2".toList = true ∧
        conversionMatches "CR2" "photo.CR2".toList = true) :=
  ⟨⟨by decide, by decide, by decide⟩,
    claim_C9_case_sensitivity "photo.PNG".toList ".PNG".toList
      (by decide) (by decide) (by decide)⟩

end Script
